import Mathlib

/-!
Verification development for the stella chess contract
(src/chess/src/contract.rs).

The repository ships only the contract dispatcher of the Linera chess
application.  The chess engine crate (ChessBoard, Game, Square, Piece,
Clock) and the view module state.rs are not part of the sources, so those
components are modelled from the specification (spec.md sections 3 to 7);
each such definition carries a doc comment saying so.  The dispatcher
itself, defined in execute_operation below, is a direct translation of
contract.rs.

Conventions of the embedding:
* squares are indices 0 to 63, row major from a1 = 0 to h8 = 63;
* bitboards are natural numbers whose bits 0 to 63 may be set;
* Rust panics (assert_eq, expect, unwrap, failed assert_before) abort the
  transaction; they are modelled by the ExecResult.panicked constructor,
  which commits no state;
* a successful operation commits the new state together with the response.
-/

namespace Stella

/-- The two sides.  Mirrors piece::Color of the chess crate. -/
inductive Color where
  | White
  | Black
deriving DecidableEq, Repr

/-- The opposing side. -/
def Color.opposite : Color → Color
  | .White => .Black
  | .Black => .White

/-- The twelve coloured piece kinds.  Mirrors piece::Piece of the chess
crate (spec section 3). -/
inductive Piece where
  | WhitePawn | WhiteKnight | WhiteBishop | WhiteRook | WhiteQueen | WhiteKing
  | BlackPawn | BlackKnight | BlackBishop | BlackRook | BlackQueen | BlackKing
deriving DecidableEq, Repr

/-- The colour carried by a piece. -/
def Piece.color : Piece → Color
  | .WhitePawn | .WhiteKnight | .WhiteBishop | .WhiteRook | .WhiteQueen | .WhiteKing => .White
  | _ => .Black

/-- Whether the piece is a pawn of either colour. -/
def Piece.isPawn : Piece → Bool
  | .WhitePawn | .BlackPawn => true
  | _ => false

/-- Castling side.  Mirrors CastleType of the chess crate. -/
inductive CastleType where
  | KingSide
  | QueenSide
deriving DecidableEq, Repr

/-- Move kinds, as in spec section 3 (MoveType of the chess crate). -/
inductive MoveType where
  | Move
  | Capture (p : Piece)
  | Castle (c : CastleType)
  | EnPassant
  | Promotion (p : Piece)
deriving DecidableEq, Repr

/-- Game status flag stored on the board (spec section 3). -/
inductive GameState where
  | InPlay
  | Checkmate
  | Stalemate
deriving DecidableEq, Repr

/-- Error kinds.  InvalidRequest, InvalidCapture, InvalidMove and
InvalidPromotion appear in contract.rs; the remaining variants are
modelled from the spec error taxonomy (section 7), since the chess crate
that declares ChessError is not among the sources. -/
inductive ChessError where
  | InvalidRequest
  | InvalidCapture
  | InvalidMove
  | InvalidPromotion
  | NoSuchPiece
  | WrongColor
  | FriendlyFire
  | CaptureMismatch
  | IllegalPath
  | IllegalCastle
  | IllegalEnPassant
  | IllegalPromotion
  | LeavesKingInCheck
  | ParseError
  | GameOver
deriving DecidableEq, Repr

/-- Contract response, mirroring ChessResponse of the chess crate as used
by contract.rs. -/
inductive ChessResponse where
  | Ok
  | Err (e : ChessError)
deriving DecidableEq, Repr

/-- Model of Rust str::starts_with for the one character patterns used in
contract.rs. -/
def startsWithChar (s : String) (c : Char) : Bool :=
  match s.data with
  | [] => false
  | a :: _ => a == c

/-- Model of Rust str::ends_with for the one character patterns used in
contract.rs. -/
def endsWithChar (s : String) (c : Char) : Bool :=
  match s.data.getLast? with
  | none => false
  | some a => a == c

/-- Modelled from the spec: Square::from_str of the chess crate.  A square
code is a file letter a to h followed by a rank digit 1 to 8; anything
else is rejected (spec sections 3 and 4.1).  The index is row major with
a1 = 0. -/
def Square.from_str (s : String) : Option Nat :=
  match s.data with
  | [f, r] =>
    if ('a' ≤ f ∧ f ≤ 'h') ∧ ('1' ≤ r ∧ r ≤ '8') then
      some ((r.toNat - '1'.toNat) * 8 + (f.toNat - 'a'.toNat))
    else
      none
  | _ => none

/-- Modelled from the spec: the rank accessor of Square, 1 indexed as in
the caller facing API (spec section 3); contract.rs compares it with 7
and 2 for the promotion ranks. -/
def Square.rank (sq : Nat) : Nat := sq / 8 + 1

/-- Modelled from the spec: the twelve valid colour plus kind piece codes
(spec section 6), shared by ChessBoard::get_piece and Piece::from_str. -/
def pieceOfCode (s : String) : Option Piece :=
  match s.data with
  | ['w', 'P'] => some .WhitePawn
  | ['w', 'N'] => some .WhiteKnight
  | ['w', 'B'] => some .WhiteBishop
  | ['w', 'R'] => some .WhiteRook
  | ['w', 'Q'] => some .WhiteQueen
  | ['w', 'K'] => some .WhiteKing
  | ['b', 'P'] => some .BlackPawn
  | ['b', 'N'] => some .BlackKnight
  | ['b', 'B'] => some .BlackBishop
  | ['b', 'R'] => some .BlackRook
  | ['b', 'Q'] => some .BlackQueen
  | ['b', 'K'] => some .BlackKing
  | _ => none

/-- Modelled from the spec: ChessBoard::get_piece, parsing a piece code. -/
def ChessBoard.get_piece (s : String) : Option Piece := pieceOfCode s

/-- Modelled from the spec: Piece::from_str, parsing a piece code. -/
def Piece.from_str (s : String) : Option Piece := pieceOfCode s

/-- The bitboard bit for a square index. -/
def bit (i : Nat) : Nat := 2 ^ i

/-- Whether bit i of a mask is set. -/
def hasBit (m i : Nat) : Bool := m.testBit i

/-- Set bit i of a mask. -/
def setBit (m i : Nat) : Nat := m ||| bit i

/-- All 64 low bits set. -/
def mask64 : Nat := 2 ^ 64 - 1

/-- Clear bit i of a mask (masks hold only bits 0 to 63). -/
def clearBit (m i : Nat) : Nat := m &&& (mask64 ^^^ bit i)

/-- Modelled from the spec: the positional part of the board, one 64 bit
occupancy mask per coloured piece kind plus the en passant target mask,
the castling rights and nothing else (spec section 3; contract.rs reads
board.board.en_passant, so en_passant lives here). -/
structure ChessBoard where
  wP : Nat
  wN : Nat
  wB : Nat
  wR : Nat
  wQ : Nat
  wK : Nat
  bP : Nat
  bN : Nat
  bB : Nat
  bR : Nat
  bQ : Nat
  bK : Nat
  en_passant : Nat
  castleWK : Bool
  castleWQ : Bool
  castleBK : Bool
  castleBQ : Bool
deriving DecidableEq, Repr

namespace ChessBoard

/-- The occupancy mask of one coloured piece kind. -/
def mask (b : ChessBoard) : Piece → Nat
  | .WhitePawn => b.wP
  | .WhiteKnight => b.wN
  | .WhiteBishop => b.wB
  | .WhiteRook => b.wR
  | .WhiteQueen => b.wQ
  | .WhiteKing => b.wK
  | .BlackPawn => b.bP
  | .BlackKnight => b.bN
  | .BlackBishop => b.bB
  | .BlackRook => b.bR
  | .BlackQueen => b.bQ
  | .BlackKing => b.bK

/-- Replace the occupancy mask of one coloured piece kind. -/
def setMask (b : ChessBoard) (p : Piece) (m : Nat) : ChessBoard :=
  match p with
  | .WhitePawn => { b with wP := m }
  | .WhiteKnight => { b with wN := m }
  | .WhiteBishop => { b with wB := m }
  | .WhiteRook => { b with wR := m }
  | .WhiteQueen => { b with wQ := m }
  | .WhiteKing => { b with wK := m }
  | .BlackPawn => { b with bP := m }
  | .BlackKnight => { b with bN := m }
  | .BlackBishop => { b with bB := m }
  | .BlackRook => { b with bR := m }
  | .BlackQueen => { b with bQ := m }
  | .BlackKing => { b with bK := m }

/-- Combined white occupancy. -/
def whiteMask (b : ChessBoard) : Nat :=
  b.wP ||| b.wN ||| b.wB ||| b.wR ||| b.wQ ||| b.wK

/-- Combined black occupancy. -/
def blackMask (b : ChessBoard) : Nat :=
  b.bP ||| b.bN ||| b.bB ||| b.bR ||| b.bQ ||| b.bK

/-- Combined occupancy of both colours. -/
def allMask (b : ChessBoard) : Nat := b.whiteMask ||| b.blackMask

/-- The piece occupying a square, if any (spec section 4.1). -/
def piece_at (b : ChessBoard) (i : Nat) : Option Piece :=
  if hasBit b.wP i then some .WhitePawn
  else if hasBit b.wN i then some .WhiteKnight
  else if hasBit b.wB i then some .WhiteBishop
  else if hasBit b.wR i then some .WhiteRook
  else if hasBit b.wQ i then some .WhiteQueen
  else if hasBit b.wK i then some .WhiteKing
  else if hasBit b.bP i then some .BlackPawn
  else if hasBit b.bN i then some .BlackKnight
  else if hasBit b.bB i then some .BlackBishop
  else if hasBit b.bR i then some .BlackRook
  else if hasBit b.bQ i then some .BlackQueen
  else if hasBit b.bK i then some .BlackKing
  else none

/-- The capture string built by ChessBoard::create_capture_string; the
exact format is not in the sources, modelled as the usual algebraic
capture notation (spec section 3, history entries). -/
def create_capture_string (f t : String) : String := f ++ "x" ++ t

end ChessBoard

/-- File 0 to 7 of a square index. -/
def fileOf (i : Nat) : Nat := i % 8

/-- Rank 0 to 7 of a square index. -/
def rank0 (i : Nat) : Nat := i / 8

/-- Sign of an integer, used for ray directions. -/
def sgn (z : Int) : Int := if 0 < z then 1 else if z < 0 then -1 else 0

/-- Square index from integer coordinates (callers keep them in range). -/
def sqOf (x y : Int) : Nat := (y * 8 + x).toNat

/-- Walk from (x, y) by steps (sx, sy) up to the target (tx, ty); true
when every strictly intermediate square is unoccupied in occ.  Fuel
bounds the walk by the board size. -/
def clearWalk (occ : Nat) (sx sy tx ty : Int) : Int → Int → Nat → Bool
  | _, _, 0 => true
  | x, y, fuel + 1 =>
    if x = tx ∧ y = ty then true
    else if hasBit occ (sqOf x y) then false
    else clearWalk occ sx sy tx ty (x + sx) (y + sy) fuel

/-- Every square strictly between two aligned squares is unoccupied. -/
def clearPath (occ : Nat) (fromSq toSq : Nat) : Bool :=
  let x0 : Int := fileOf fromSq
  let y0 : Int := rank0 fromSq
  let x1 : Int := fileOf toSq
  let y1 : Int := rank0 toSq
  let sx := sgn (x1 - x0)
  let sy := sgn (y1 - y0)
  clearWalk occ sx sy x1 y1 (x0 + sx) (y0 + sy) 8

/-- Pawn forward direction as a rank delta. -/
def pawnDir : Color → Int
  | .White => 1
  | .Black => -1

/-- Modelled from the spec: whether piece p standing on fromSq attacks
toSq given the combined occupancy (movement patterns of spec section
4.2 item 3; for pawns only the diagonal capture pattern attacks). -/
def attacksPattern (occ : Nat) (p : Piece) (fromSq toSq : Nat) : Bool :=
  let dx : Int := (fileOf toSq : Int) - (fileOf fromSq : Int)
  let dy : Int := (rank0 toSq : Int) - (rank0 fromSq : Int)
  match p with
  | .WhitePawn => dx.natAbs = 1 ∧ dy = 1
  | .BlackPawn => dx.natAbs = 1 ∧ dy = -1
  | .WhiteKnight | .BlackKnight =>
    (dx.natAbs = 1 ∧ dy.natAbs = 2) ∨ (dx.natAbs = 2 ∧ dy.natAbs = 1)
  | .WhiteBishop | .BlackBishop =>
    dx.natAbs = dy.natAbs ∧ dx.natAbs ≠ 0 ∧ clearPath occ fromSq toSq
  | .WhiteRook | .BlackRook =>
    ((dx = 0 ∧ dy ≠ 0) ∨ (dy = 0 ∧ dx ≠ 0)) ∧ clearPath occ fromSq toSq
  | .WhiteQueen | .BlackQueen =>
    ((dx.natAbs = dy.natAbs ∧ dx.natAbs ≠ 0) ∨ (dx = 0 ∧ dy ≠ 0) ∨ (dy = 0 ∧ dx ≠ 0))
      ∧ clearPath occ fromSq toSq
  | .WhiteKing | .BlackKing =>
    max dx.natAbs dy.natAbs = 1

/-- Modelled from the spec: whether any piece of colour c attacks the
square (used for castles, check safety and check detection, spec
sections 4.2 and 4.4). -/
def attacked (b : ChessBoard) (sq : Nat) (c : Color) : Bool :=
  (List.range 64).any fun i =>
    match b.piece_at i with
    | some p => p.color == c && attacksPattern b.allMask p i sq
    | none => false

/-- The square of the king of a colour, scanning the king mask. -/
def findKing (b : ChessBoard) (c : Color) : Option Nat :=
  let m := match c with | .White => b.wK | .Black => b.bK
  (List.range 64).find? fun i => hasBit m i

/-- Modelled from the spec: check 3 of the validator (spec section 4.2),
destination reachable by the movement pattern of the piece given the
occupancy.  Sliding pieces need a clear path; pawns may push one square
onto an empty square, push two from their starting rank across empty
squares, or step diagonally onto an enemy occupied square or the en
passant target. -/
def moveReach (b : ChessBoard) (p : Piece) (fromSq toSq : Nat) : Bool :=
  let occ := b.allMask
  let dx : Int := (fileOf toSq : Int) - (fileOf fromSq : Int)
  let dy : Int := (rank0 toSq : Int) - (rank0 fromSq : Int)
  if p.isPawn then
    let dir := pawnDir p.color
    let startRank : Nat := match p.color with | .White => 1 | .Black => 6
    let push1 := dx = 0 ∧ dy = dir ∧ ¬ hasBit occ toSq = true
    let push2 := dx = 0 ∧ dy = 2 * dir ∧ rank0 fromSq = startRank
      ∧ ¬ hasBit occ (sqOf (fileOf fromSq) ((rank0 fromSq : Int) + dir)) = true
      ∧ ¬ hasBit occ toSq = true
    let enemyAt : Bool := match b.piece_at toSq with
      | some q => decide (q.color ≠ p.color)
      | none => false
    let diag := dx.natAbs = 1 ∧ dy = dir ∧ (enemyAt = true ∨ hasBit b.en_passant toSq = true)
    decide (push1 ∨ push2 ∨ diag)
  else
    attacksPattern occ p fromSq toSq

/-- Home squares of king and rook for a castle, plus the transit and
intervening squares (spec section 4.2 item 5). -/
def castleData (c : Color) (side : CastleType) : Nat × Nat × Nat × List Nat × List Nat :=
  match c, side with
  | .White, .KingSide => (4, 7, 6, [5, 6], [4, 5, 6])
  | .White, .QueenSide => (4, 0, 2, [1, 2, 3], [4, 3, 2])
  | .Black, .KingSide => (60, 63, 62, [61, 62], [60, 61, 62])
  | .Black, .QueenSide => (60, 56, 58, [57, 58, 59], [60, 59, 58])

/-- Whether the castling right of a colour and side is still held. -/
def rightHeld (b : ChessBoard) (c : Color) (side : CastleType) : Bool :=
  match c, side with
  | .White, .KingSide => b.castleWK
  | .White, .QueenSide => b.castleWQ
  | .Black, .KingSide => b.castleBK
  | .Black, .QueenSide => b.castleBQ

/-- Modelled from the spec: check 5 of the validator (spec section 4.2).
The right must still be held, king and rook must stand on their original
squares, the destination must match, the squares between king and rook
must be empty, and no square of the king transit (start included) may be
attacked by the opponent. -/
def castleOk (b : ChessBoard) (c : Color) (side : CastleType)
    (fromSq toSq : Nat) : Bool :=
  let (kingHome, rookHome, kingDest, between, transit) := castleData c side
  let rookMask := match c with | .White => b.wR | .Black => b.bR
  rightHeld b c side
    && decide (fromSq = kingHome) && decide (toSq = kingDest)
    && hasBit rookMask rookHome
    && between.all (fun i => ¬ hasBit b.allMask i)
    && transit.all (fun i => ¬ attacked b i c.opposite)

/-- Whether a move kind is a castle. -/
def MoveType.isCastle : MoveType → Bool
  | .Castle _ => true
  | _ => false

/-- The promotion target kinds allowed by spec section 4.2 item 7:
knight, bishop, rook or queen of either colour. -/
def promotable (q : Piece) : Bool :=
  match q with
  | .WhiteKnight | .WhiteBishop | .WhiteRook | .WhiteQueen => true
  | .BlackKnight | .BlackBishop | .BlackRook | .BlackQueen => true
  | _ => false

/-- The last rank index of a colour (7 for white, 0 for black). -/
def lastRank0 : Color → Nat
  | .White => 7
  | .Black => 0

/-- Modelled from the spec: the move applicator on the positional state
(spec section 4.3).  Clears the origin bit, sets the destination bit (for
a promotion, the bit of the promoted piece), removes the captured piece,
moves the rook of a castle, rewrites the castling rights for king or rook
moves, rook captures on a home corner and castles, and sets the en
passant target exactly after a double pawn push. -/
def applyMove (b : ChessBoard) (fromSq toSq : Nat) (p : Piece)
    (kind : MoveType) : ChessBoard :=
  let b1 := b.setMask p (clearBit (b.mask p) fromSq)
  let b2 :=
    match kind with
    | .Move => b1.setMask p (setBit (b1.mask p) toSq)
    | .Capture x =>
      let bc := b1.setMask x (clearBit (b1.mask x) toSq)
      bc.setMask p (setBit (bc.mask p) toSq)
    | .EnPassant =>
      let victim : Nat := match p.color with | .White => toSq - 8 | .Black => toSq + 8
      let victimPawn : Piece := match p.color with | .White => .BlackPawn | .Black => .WhitePawn
      let bc := b1.setMask victimPawn (clearBit (b1.mask victimPawn) victim)
      bc.setMask p (setBit (bc.mask p) toSq)
    | .Castle side =>
      let (_, rookHome, kingDest, _, _) := castleData p.color side
      let rookDest : Nat := match p.color, side with
        | .White, .KingSide => 5
        | .White, .QueenSide => 3
        | .Black, .KingSide => 61
        | .Black, .QueenSide => 59
      let rook : Piece := match p.color with | .White => .WhiteRook | .Black => .BlackRook
      let bk := b1.setMask p (setBit (b1.mask p) kingDest)
      let br := bk.setMask rook (setBit (clearBit (bk.mask rook) rookHome) rookDest)
      match p.color with
      | .White => { br with castleWK := false, castleWQ := false }
      | .Black => { br with castleBK := false, castleBQ := false }
    | .Promotion q =>
      b1.setMask q (setBit (b1.mask q) toSq)
  -- en passant target: set exactly after a double pawn push
  let ep : Nat :=
    if p.isPawn ∧ (toSq = fromSq + 16 ∨ fromSq = toSq + 16) then
      bit ((fromSq + toSq) / 2)
    else 0
  let b3 := { b2 with en_passant := ep }
  -- castling rights lost by king or rook movement or rook capture on a corner
  let b4 :=
    match p with
    | .WhiteKing => { b3 with castleWK := false, castleWQ := false }
    | .BlackKing => { b3 with castleBK := false, castleBQ := false }
    | .WhiteRook =>
      if fromSq = 0 then { b3 with castleWQ := false }
      else if fromSq = 7 then { b3 with castleWK := false }
      else b3
    | .BlackRook =>
      if fromSq = 56 then { b3 with castleBQ := false }
      else if fromSq = 63 then { b3 with castleBK := false }
      else b3
    | _ => b3
  match kind with
  | .Capture x =>
    match x with
    | .WhiteRook =>
      if toSq = 0 then { b4 with castleWQ := false }
      else if toSq = 7 then { b4 with castleWK := false }
      else b4
    | .BlackRook =>
      if toSq = 56 then { b4 with castleBQ := false }
      else if toSq = 63 then { b4 with castleBK := false }
      else b4
    | _ => b4
  | _ => b4

/-- Modelled from the spec: check 8 of the validator, check safety (spec
section 4.2).  The move is applied on a copy and the own king must not be
attacked afterwards. -/
def checkSafety (b : ChessBoard) (fromSq toSq : Nat) (p : Piece)
    (kind : MoveType) : Option ChessError :=
  let b2 := applyMove b fromSq toSq p kind
  match findKing b2 p.color with
  | some k => if attacked b2 k p.color.opposite then some .LeavesKingInCheck else none
  | none => none

/-- Modelled from the spec: the validator (spec section 4.2), running the
checks in the listed order and returning the first distinct failure, or
none when the move is legal.  active is the side to move of the wrapping
Game value. -/
def validate (b : ChessBoard) (active : Color) (fromSq toSq : Nat)
    (p : Piece) (kind : MoveType) : Option ChessError :=
  if ¬ b.piece_at fromSq = some p then some .NoSuchPiece
  else if ¬ p.color = active then some .WrongColor
  else if ¬ kind.isCastle = true ∧ ¬ moveReach b p fromSq toSq = true then
    some .IllegalPath
  else if (match b.piece_at toSq with
           | some q => decide (q.color = p.color)
           | none => false) = true then some .FriendlyFire
  else
    match kind with
    | .Move => checkSafety b fromSq toSq p kind
    | .Capture x =>
      if b.piece_at toSq = some x ∧ ¬ x.color = p.color then
        checkSafety b fromSq toSq p kind
      else some .CaptureMismatch
    | .Castle side =>
      if castleOk b p.color side fromSq toSq then
        checkSafety b fromSq toSq p kind
      else some .IllegalCastle
    | .EnPassant =>
      let dx : Int := (fileOf toSq : Int) - (fileOf fromSq : Int)
      let dy : Int := (rank0 toSq : Int) - (rank0 fromSq : Int)
      if hasBit b.en_passant toSq = true ∧ p.isPawn = true
          ∧ dx.natAbs = 1 ∧ dy = pawnDir p.color then
        checkSafety b fromSq toSq p kind
      else some .IllegalEnPassant
    | .Promotion q =>
      if p.isPawn = true ∧ rank0 toSq = lastRank0 p.color ∧ promotable q = true then
        checkSafety b fromSq toSq p kind
      else some .IllegalPromotion

/-- Modelled from the spec: the game aggregate of the chess crate, the
positional board plus side to move, status flag and the append only move
history (spec section 3); contract.rs reads board.active, board.state
and board.board. -/
structure Game where
  board : ChessBoard
  active : Color
  state : GameState
  moves : List (Color × String)
deriving DecidableEq, Repr

namespace Game

/-- Modelled from the spec: the fused make_move of the engine, validating
and then applying, leaving the game unchanged on error (spec section
4.3).  Switching the active colour is a separate step. -/
def make_move (g : Game) (fromSq toSq : Nat) (p : Piece) (kind : MoveType) :
    Except ChessError Game :=
  match validate g.board g.active fromSq toSq p kind with
  | some e => .error e
  | none => .ok { g with board := applyMove g.board fromSq toSq p kind }

/-- Modelled from the spec: toggling the side to move (spec section 3,
invariant on active). -/
def switch_player_turn (g : Game) : Game := { g with active := g.active.opposite }

/-- Modelled from the spec: appending one history entry (spec section 3,
history is append only). -/
def create_move_string (g : Game) (c : Color) (mv : String) : Game :=
  { g with moves := g.moves ++ [(c, mv)] }

end Game

/-- Modelled from the spec: the candidate move kinds tried for a pair of
squares while searching for a legal move (spec section 4.4, exhaustive
search over pseudo legal moves): a plain move, a capture of the piece
standing on the target, en passant when the target carries the en
passant bit, promotions when a pawn reaches the last rank, and castles
for a king on its home square. -/
def candidateKinds (b : ChessBoard) (toSq : Nat) (p : Piece) : List MoveType :=
  let caps : List MoveType :=
    match b.piece_at toSq with
    | some q => if q.color ≠ p.color then [.Capture q] else []
    | none => []
  let eps : List MoveType :=
    if hasBit b.en_passant toSq ∧ p.isPawn = true then [.EnPassant] else []
  let proms : List MoveType :=
    if p.isPawn = true ∧ rank0 toSq = lastRank0 p.color then
      match p.color with
      | .White => [.Promotion .WhiteQueen, .Promotion .WhiteKnight]
      | .Black => [.Promotion .BlackQueen, .Promotion .BlackKnight]
    else []
  let castles : List MoveType :=
    match p with
    | .WhiteKing => [.Castle .KingSide, .Castle .QueenSide]
    | .BlackKing => [.Castle .KingSide, .Castle .QueenSide]
    | _ => []
  .Move :: caps ++ eps ++ proms ++ castles

/-- Modelled from the spec: whether the active colour has any legal move
(spec section 4.4). -/
def hasLegalMove (g : Game) : Bool :=
  (List.range 64).any fun f =>
    match g.board.piece_at f with
    | some p =>
      p.color == g.active &&
        (List.range 64).any fun t =>
          (candidateKinds g.board t p).any fun k =>
            (validate g.board g.active f t p k).isNone
    | none => false

/-- Modelled from the spec: whether the king of colour c is attacked
(spec section 4.4, check). -/
def inCheck (g : Game) (c : Color) : Bool :=
  match findKing g.board c with
  | some k => attacked g.board k c.opposite
  | none => false

/-- Modelled from the spec: the terminal state detector invoked by
contract.rs as is_checkmate after every applied move; it recomputes the
status flag for the side to move (spec section 4.4). -/
def Game.is_checkmate (g : Game) : Game :=
  if hasLegalMove g then { g with state := .InPlay }
  else if inCheck g g.active then { g with state := .Checkmate }
  else { g with state := .Stalemate }

/-- Modelled from the spec: Game::new, the standard initial position with
all castling rights, no en passant target, white to move, empty history
(spec sections 3 and 8, scenario A). -/
def Game.new : Game :=
  { board :=
      { wP := 0xFF00
        wN := 0x42
        wB := 0x24
        wR := 0x81
        wQ := 0x8
        wK := 0x10
        bP := 0x00FF000000000000
        bN := 0x4200000000000000
        bB := 0x2400000000000000
        bR := 0x8100000000000000
        bQ := 0x0800000000000000
        bK := 0x1000000000000000
        en_passant := 0
        castleWK := true
        castleWQ := true
        castleBK := true
        castleBQ := true }
    active := .White
    state := .InPlay
    moves := [] }

/-- Modelled from the spec: the chess clock (spec section 4.5).  The
crate carrying Clock is not among the sources; per the spec, make_move
records that a colour completed a move at a time, and block_delay is the
deadline window.  The recording is kept as the list of recorded events,
newest first, so that every invocation is observable. -/
structure Clock where
  block_delay : Nat
  recorded : List (Nat × Color)
deriving DecidableEq, Repr

/-- Modelled from the spec: Clock::make_move records that the colour just
completed a move at the given time (spec section 4.5). -/
def Clock.make_move (c : Clock) (now : Nat) (col : Color) : Clock :=
  { c with recorded := (now, col) :: c.recorded }

/-- Player identities; the dispatcher maps authenticated owners to
colours. -/
abbrev Owner := Nat

/-- The persistent contract state, mirroring the Chess view of state.rs
(not among the sources): the game board register, the clock register,
the owner registry and the player list. -/
structure ChessState where
  board : Game
  clock : Clock
  owners : List (Owner × Color)
  players : List Owner
deriving DecidableEq, Repr

/-- Modelled from the spec: Chess::get_players of state.rs, the joined
players in join order. -/
def ChessState.get_players (s : ChessState) : List Owner := s.players

/-- Modelled from the spec: Chess::add_player of state.rs, appending a
player. -/
def ChessState.add_player (s : ChessState) (p : Owner) : ChessState :=
  { s with players := s.players ++ [p] }

/-- Lookup in the owner registry (MapView::get of state.rs). -/
def ownersGet (l : List (Owner × Color)) (o : Owner) : Option Color :=
  match l.find? (fun e => e.1 == o) with
  | some e => some e.2
  | none => none

/-- The runtime values read by the dispatcher: the authenticated signer,
the block timestamp returned by system_time, and the wall clock instant
at block validation against which assert_before compares (Linera runtime
semantics, spec section 6). -/
structure Ctx where
  signer : Option Owner
  block_time : Nat
  validation_time : Nat
deriving DecidableEq, Repr

/-- Outcome of one operation: either the transaction aborted through a
panic (assert, expect, unwrap, assert_before), committing nothing, or it
committed a response together with the new state. -/
inductive ExecResult where
  | panicked (msg : String)
  | committed (resp : ChessResponse) (s : ChessState)
deriving DecidableEq, Repr

/-- The response of a committed outcome. -/
def ExecResult.respOf : ExecResult → Option ChessResponse
  | .panicked _ => none
  | .committed r _ => some r

/-- The state of a committed outcome. -/
def ExecResult.stateOf : ExecResult → Option ChessState
  | .panicked _ => none
  | .committed _ s => some s

/-- The four inbound operations of the contract (chess crate Operation,
shapes fixed by their use in contract.rs). -/
inductive Operation where
  | NewGame (player : Owner)
  | CapturePiece (from_code to_code piece captured_piece : String)
  | MakeMove (from_code to_code piece : String)
  | PawnPromotion (from_code to_code piece promoted_piece : String)
deriving DecidableEq, Repr

/-- ChessContract::is_game_over, translated from contract.rs lines 316
to 330: Checkmate and Stalemate answer Err(InvalidRequest), InPlay
answers Ok. -/
def is_game_over (s : ChessState) : ChessResponse :=
  match s.board.state with
  | .Checkmate => .Err .InvalidRequest
  | .Stalemate => .Err .InvalidRequest
  | .InPlay => .Ok

/-- The move kind inferred by the MakeMove arm of contract.rs lines 185
to 209: EnPassant when the destination carries the en passant bit and
the piece code ends in P, a castle when a king moves from its home
square to a castle destination, otherwise a plain move. -/
def makeMoveKind (ep : Nat) (piece : String) (p : Piece) (from_sq to_sq : Nat) :
    MoveType :=
  let m1 : MoveType :=
    if ep &&& bit to_sq ≠ 0 ∧ endsWithChar piece 'P' = true then .EnPassant
    else .Move
  match p with
  | .WhiteKing =>
    if from_sq = 4 ∧ to_sq = 6 then .Castle .KingSide
    else if from_sq = 4 ∧ to_sq = 2 then .Castle .QueenSide
    else m1
  | .BlackKing =>
    if from_sq = 60 ∧ to_sq = 62 then .Castle .KingSide
    else if from_sq = 60 ∧ to_sq = 58 then .Castle .QueenSide
    else m1
  | _ => m1

/-- ChessContract::execute_operation, translated arm by arm from
contract.rs lines 64 to 307.  Every Rust panic (unwrap, expect,
assert_eq, a failed assert_before) becomes the panicked outcome; each
returned ChessResponse becomes a committed outcome carrying the state as
left by the arm.  Note that, as in the source, the result of
is_game_over is bound and discarded, assert_before receives the block
timestamp of the current operation plus block_delay (saturating_add is
plain addition on Nat), the MakeMove arm discards the engine error and
answers InvalidMove, and the PawnPromotion success path repeats the
clock.make_move and assert_before pair. -/
def execute_operation (s : ChessState) (ctx : Ctx) (op : Operation) : ExecResult :=
  match op with
  | .NewGame player =>
    let players := s.get_players
    if players.length = 2 then .committed (.Err .InvalidRequest) s
    else if players.length = 1 then
      match players with
      | p0 :: _ =>
        if player = p0 then .committed (.Err .InvalidRequest) s
        else
          let game := Game.new
          let s1 := s.add_player player
          let s2 := { s1 with board := game }
          .committed .Ok s2
      | [] => .panicked "index out of bounds"
    else
      let s1 := s.add_player player
      .committed .Ok s1
  | .CapturePiece from_code to_code piece captured_piece =>
    -- check if the game is still ongoing (result discarded in the source)
    let _ := is_game_over s
    let block_time := ctx.block_time
    match ctx.signer with
    | none => .panicked "Option::unwrap on None"
    | some owner =>
      let active_player := s.board.active
      match ownersGet s.owners owner with
      | none => .panicked "Active player not found"
      | some active =>
        if ¬ active_player = active then
          .panicked "Only the active player can make a move."
        else if startsWithChar piece 'w' = true ∧ ¬ active_player = Color.White
            ∧ startsWithChar captured_piece 'w' = true then
          .committed (.Err .InvalidCapture) s
        else if startsWithChar piece 'b' = true ∧ ¬ active_player = Color.Black
            ∧ startsWithChar captured_piece 'b' = true then
          .committed (.Err .InvalidCapture) s
        else
          match ChessBoard.get_piece piece with
          | none => .panicked "Invalid piece"
          | some p =>
            match ChessBoard.get_piece captured_piece with
            | none => .panicked "Invalid piece"
            | some capP =>
              match Square.from_str from_code with
              | none => .panicked "Invalid square"
              | some from_sq =>
                match Square.from_str to_code with
                | none => .panicked "Invalid square"
                | some to_sq =>
                  let m : MoveType := .Capture capP
                  match s.board.make_move from_sq to_sq p m with
                  | .error e => .committed (.Err e) s
                  | .ok g1 =>
                    let g2 := g1.switch_player_turn
                    let mv := ChessBoard.create_capture_string from_code to_code
                    let g3 := g2.create_move_string active mv
                    if ctx.validation_time < block_time + s.clock.block_delay then
                      let clock1 := s.clock.make_move block_time active_player
                      let g4 := g3.is_checkmate
                      .committed .Ok { s with board := g4, clock := clock1 }
                    else .panicked "assert_before"
  | .MakeMove from_code to_code piece =>
    -- check if the game is still ongoing (result discarded in the source)
    let _ := is_game_over s
    match ctx.signer with
    | none => .panicked "Option::unwrap on None"
    | some owner =>
      let active_player := s.board.active
      match ownersGet s.owners owner with
      | none => .panicked "Active player not found"
      | some active =>
        if ¬ active_player = active then
          .panicked "Only the active player can make a move."
        else if startsWithChar piece 'w' = true ∧ ¬ active_player = Color.White then
          .committed (.Err .InvalidMove) s
        else if startsWithChar piece 'b' = true ∧ ¬ active_player = Color.Black then
          .committed (.Err .InvalidMove) s
        else
          match ChessBoard.get_piece piece with
          | none => .panicked "Invalid piece"
          | some p =>
            match Square.from_str from_code with
            | none => .panicked "Invalid square"
            | some from_sq =>
              match Square.from_str to_code with
              | none => .panicked "Invalid square"
              | some to_sq =>
                let m : MoveType := makeMoveKind s.board.board.en_passant piece p from_sq to_sq
                let block_time := ctx.block_time
                match s.board.make_move from_sq to_sq p m with
                | .error _ => .committed (.Err .InvalidMove) s
                | .ok g1 =>
                  let g2 := g1.switch_player_turn
                  let g3 := g2.create_move_string active to_code
                  let clock1 := s.clock.make_move block_time active_player
                  if ctx.validation_time < block_time + s.clock.block_delay then
                    let g4 := g3.is_checkmate
                    .committed .Ok { s with board := g4, clock := clock1 }
                  else .panicked "assert_before"
  | .PawnPromotion from_code to_code piece promoted_piece =>
    -- check if the game is still ongoing (result discarded in the source)
    let _ := is_game_over s
    match Square.from_str from_code with
    | none => .panicked "Invalid square"
    | some from_sq =>
      match Piece.from_str piece with
      | none => .panicked "Invalid piece"
      | some p =>
        if ¬ p = .WhitePawn ∧ ¬ p = .BlackPawn then
          .committed (.Err .InvalidPromotion) s
        else if p = .WhitePawn ∧ ¬ Square.rank from_sq = 7 then
          .committed (.Err .InvalidPromotion) s
        else if p = .BlackPawn ∧ ¬ Square.rank from_sq = 2 then
          .committed (.Err .InvalidPromotion) s
        else
          let block_time := ctx.block_time
          match ctx.signer with
          | none => .panicked "Option::unwrap on None"
          | some owner =>
            let active_player := s.board.active
            match ownersGet s.owners owner with
            | none => .panicked "Active player not found"
            | some active =>
              if ¬ active_player = active then
                .panicked "Only the active player can make a move."
              else
                match Square.from_str to_code with
                | none => .panicked "Invalid square"
                | some to_sq =>
                  match Piece.from_str promoted_piece with
                  | none => .panicked "Invalid piece"
                  | some promoting_to =>
                    match s.board.make_move from_sq to_sq p (.Promotion promoting_to) with
                    | .error e => .committed (.Err e) s
                    | .ok g1 =>
                      let g2 := g1.switch_player_turn
                      let g3 := g2.create_move_string active to_code
                      let clock1 := s.clock.make_move block_time active_player
                      if ctx.validation_time < block_time + s.clock.block_delay then
                        let g4 := g3.is_checkmate
                        let clock2 := clock1.make_move block_time active_player
                        if ctx.validation_time < block_time + s.clock.block_delay then
                          .committed .Ok { s with board := g4, clock := clock2 }
                        else .panicked "assert_before"
                      else .panicked "assert_before"

/-! ### Concrete scenarios used by the theorems below -/

/-- Owner registry of a two player game: owner 1 is white, owner 2 is
black. -/
def ownersWB : List (Owner × Color) := [(1, .White), (2, .Black)]

/-- A sparse position: white rook a1, white king e1, black king e8; no
castling rights, no en passant target. -/
def boardKRk : ChessBoard :=
  { wP := 0, wN := 0, wB := 0, wR := 1, wQ := 0, wK := 2 ^ 4
    bP := 0, bN := 0, bB := 0, bR := 0, bQ := 0, bK := 2 ^ 60
    en_passant := 0, castleWK := false, castleWQ := false
    castleBK := false, castleBQ := false }

/-- The KRk position with white to move, in play. -/
def gameKRk : Game :=
  { board := boardKRk, active := .White, state := .InPlay, moves := [] }

/-- Full contract state around gameKRk: the black player completed the
previous move at time 0 and the clock window is 10. -/
def stInPlay : ChessState :=
  { board := gameKRk
    clock := { block_delay := 10, recorded := [(0, .Black)] }
    owners := ownersWB, players := [1, 2] }

/-- The same state with the stored status flag at Checkmate. -/
def stMate : ChessState :=
  { stInPlay with board := { gameKRk with state := .Checkmate } }

/-- Runtime context: white owner signs, block timestamp 1000000, block
validated exactly at its timestamp. -/
def ctxLate : Ctx := { signer := some 1, block_time := 1000000, validation_time := 1000000 }

/-- A promotion position: white pawn a7, white king e1, black king h1. -/
def boardProm : ChessBoard :=
  { wP := 2 ^ 48, wN := 0, wB := 0, wR := 0, wQ := 0, wK := 2 ^ 4
    bP := 0, bN := 0, bB := 0, bR := 0, bQ := 0, bK := 2 ^ 7
    en_passant := 0, castleWK := false, castleWQ := false
    castleBK := false, castleBQ := false }

/-- Contract state around the promotion position, empty clock record. -/
def stProm : ChessState :=
  { board := { board := boardProm, active := .White, state := .InPlay, moves := [] }
    clock := { block_delay := 10, recorded := [] }
    owners := ownersWB, players := [1, 2] }

/-- Runtime context for the promotion scenario. -/
def ctxProm : Ctx := { signer := some 1, block_time := 5, validation_time := 5 }

/-- Runtime context in which the black owner signs. -/
def ctxBlack : Ctx := { signer := some 2, block_time := 5, validation_time := 5 }

/-- A well formed piece code determines its one character colour
prefixes: it starts with w exactly for a white piece and with b exactly
for a black piece. -/
theorem pieceOfCode_prefixChars (pc : String) (p : Piece)
    (hp : pieceOfCode pc = some p) :
    startsWithChar pc 'w' = decide (p.color = Color.White)
      ∧ startsWithChar pc 'b' = decide (p.color = Color.Black) := by
  unfold pieceOfCode at hp
  unfold startsWithChar
  split at hp
  all_goals try exact Option.noConfusion hp
  all_goals (rename_i heq; cases hp; rw [heq]; exact ⟨rfl, rfl⟩)

/-- A string starting with b does not start with w. -/
theorem startsWithChar_w_of_b (s : String) (h : startsWithChar s 'b' = true) :
    startsWithChar s 'w' = false := by
  unfold startsWithChar at h ⊢
  cases hd : s.data <;> simp_all

example : Square.from_str "e4" = some 28 := by decide
example : Square.from_str "a1" = some 0 := by decide
example : Square.from_str "h8" = some 63 := by decide
example : Square.from_str "e9" = none := by decide
example : Square.from_str "zz" = none := by decide
example : pieceOfCode "wP" = some .WhitePawn := by decide
example : pieceOfCode "bK" = some .BlackKing := by decide
example : pieceOfCode "wX" = none := by decide
example : startsWithChar "wP" 'w' = true := by decide
example : endsWithChar "wP" 'P' = true := by decide

/-! ### Claim theorems -/

/-- C1.  The claim says a state mutating operation against a Checkmate or
Stalemate board returns a game over error before any other work, leaving
Board and Clock unchanged.  The code calls is_game_over but discards its
result (contract.rs lines 94, 156, 242), so the operation proceeds: on a
board whose stored status is Checkmate, a MakeMove commits Ok, toggles
the active colour, advances the clock record and even recomputes the
status flag back to InPlay. -/
theorem gameOver_check_discarded :
    stMate.board.state = GameState.Checkmate
      ∧ is_game_over stMate = ChessResponse.Err ChessError.InvalidRequest
      ∧ (execute_operation stMate ctxLate
          (Operation.MakeMove "a1" "a2" "wR")).respOf = some ChessResponse.Ok
      ∧ ((execute_operation stMate ctxLate
          (Operation.MakeMove "a1" "a2" "wR")).stateOf.map
            (fun st => (st.board.active, st.board.state, st.clock.recorded.length)))
          = some (Color.Black, GameState.InPlay, 2) :=
  ⟨rfl, rfl, rfl, rfl⟩

/-- C2.  The claim says the dispatcher aborts a move arriving later than
block_delay after the previous move.  The only temporal check in
contract.rs is assert_before(block_time saturating_add block_delay)
where block_time is the timestamp of the current block itself, so it
never measures the distance to the previous move: here the previous
(black) move was recorded at time 0, block_delay is 10, the next move is
submitted at time 1000000 and still commits Ok. -/
theorem deadline_check_vacuous :
    stInPlay.clock.recorded = [(0, Color.Black)]
      ∧ stInPlay.clock.block_delay = 10
      ∧ ctxLate.block_time = 1000000
      ∧ (execute_operation stInPlay ctxLate
          (Operation.MakeMove "a1" "a2" "wR")).respOf = some ChessResponse.Ok :=
  ⟨rfl, rfl, rfl, rfl⟩

/-- C3.  The claim says Clock::make_move runs exactly once per applied
move.  The PawnPromotion success path of contract.rs repeats the
clock.make_move plus assert_before pair (lines 293 and 298), so a single
applied promotion records two clock events. -/
theorem promotion_records_clock_twice :
    stProm.clock.recorded.length = 0
      ∧ (execute_operation stProm ctxProm
          (Operation.PawnPromotion "a7" "a8" "wP" "wQ")).respOf = some ChessResponse.Ok
      ∧ ((execute_operation stProm ctxProm
          (Operation.PawnPromotion "a7" "a8" "wP" "wQ")).stateOf.map
            (fun st => st.clock.recorded))
          = some [(5, Color.White), (5, Color.White)] :=
  ⟨rfl, rfl, rfl⟩

/-- When the MakeMove arm reaches the engine (signer resolves to the
active colour, the piece code parses with the active colour, both
squares parse) and the engine fails, the dispatcher answers InvalidMove
whatever the engine error was (contract.rs line 231). -/
theorem exec_makeMove_engine_error
    (s : ChessState) (ctx : Ctx) (o : Owner) (fc tc pc : String)
    (p : Piece) (fs ts : Nat) (e : ChessError)
    (hs : ctx.signer = some o)
    (ho : ownersGet s.owners o = some s.board.active)
    (hp : ChessBoard.get_piece pc = some p)
    (hcol : p.color = s.board.active)
    (hf : Square.from_str fc = some fs)
    (ht : Square.from_str tc = some ts)
    (he : s.board.make_move fs ts p
        (makeMoveKind s.board.board.en_passant pc p fs ts) = Except.error e) :
    execute_operation s ctx (Operation.MakeMove fc tc pc)
      = ExecResult.committed (ChessResponse.Err ChessError.InvalidMove) s := by
  obtain ⟨hw, hb⟩ := pieceOfCode_prefixChars pc p hp
  simp [execute_operation, hs, ho, hp, hf, ht, he, hw, hb, ← hcol]

/-- When the CapturePiece arm reaches the engine and the engine fails,
the dispatcher surfaces the engine error verbatim (contract.rs line
150). -/
theorem exec_capture_engine_error
    (s : ChessState) (ctx : Ctx) (o : Owner) (fc tc pc cc : String)
    (p cp : Piece) (fs ts : Nat) (e : ChessError)
    (hs : ctx.signer = some o)
    (ho : ownersGet s.owners o = some s.board.active)
    (hp : ChessBoard.get_piece pc = some p)
    (hcp : ChessBoard.get_piece cc = some cp)
    (hcol : p.color = s.board.active)
    (hf : Square.from_str fc = some fs)
    (ht : Square.from_str tc = some ts)
    (he : s.board.make_move fs ts p (MoveType.Capture cp) = Except.error e) :
    execute_operation s ctx (Operation.CapturePiece fc tc pc cc)
      = ExecResult.committed (ChessResponse.Err e) s := by
  obtain ⟨hw, hb⟩ := pieceOfCode_prefixChars pc p hp
  cases hpc : p.color
  all_goals simp [execute_operation, hs, ho, hp, hcp, hf, ht, he, hw, hb, ← hcol, hpc]

/-- When the PawnPromotion arm reaches the engine (the from square
parses, the piece code parses as the pawn of the matching promotion
rank, the signer resolves to the active colour, the remaining codes
parse) and the engine fails, the dispatcher surfaces the engine error
verbatim (contract.rs line 303). -/
theorem exec_promotion_engine_error
    (s : ChessState) (ctx : Ctx) (o : Owner) (fc tc pc qc : String)
    (p q : Piece) (fs ts : Nat) (e : ChessError)
    (hs : ctx.signer = some o)
    (ho : ownersGet s.owners o = some s.board.active)
    (hf : Square.from_str fc = some fs)
    (hp : Piece.from_str pc = some p)
    (hpr : p = Piece.WhitePawn ∧ Square.rank fs = 7
        ∨ p = Piece.BlackPawn ∧ Square.rank fs = 2)
    (ht : Square.from_str tc = some ts)
    (hq : Piece.from_str qc = some q)
    (he : s.board.make_move fs ts p (MoveType.Promotion q) = Except.error e) :
    execute_operation s ctx (Operation.PawnPromotion fc tc pc qc)
      = ExecResult.committed (ChessResponse.Err e) s := by
  rcases hpr with ⟨hpw, hr⟩ | ⟨hpb, hr⟩
  · subst hpw
    simp [execute_operation, hs, ho, hf, hp, ht, hq, he, hr]
  · subst hpb
    simp [execute_operation, hs, ho, hf, hp, ht, hq, he, hr]

/-- Any operation outcome that commits an Err response carries the input
state untouched: no arm of execute_operation mutates anything before
returning an error. -/
theorem exec_err_unchanged (s : ChessState) (ctx : Ctx) (op : Operation)
    (e : ChessError) (s' : ChessState)
    (h : execute_operation s ctx op = ExecResult.committed (ChessResponse.Err e) s') :
    s' = s := by
  cases op
  all_goals simp only [execute_operation] at h
  all_goals repeat' split at h
  all_goals
    first
      | exact ExecResult.noConfusion h
      | (injection h with h1 h2
         exact (ChessResponse.noConfusion h1 : s' = s))
      | (injection h with h1 h2
         exact h2.symm)

/-- C4 counterexample.  The claim says every illegal move is answered
with the distinct MoveError variant of the failed check.  Moving the
white rook from a1 onto the own king on e1 fails inside the engine with
FriendlyFire, yet the MakeMove arm answers the collapsed InvalidMove. -/
theorem makeMove_error_collapsed_cex :
    gameKRk.make_move 0 4 Piece.WhiteRook MoveType.Move
        = Except.error ChessError.FriendlyFire
      ∧ execute_operation stInPlay ctxProm (Operation.MakeMove "a1" "e1" "wR")
          = ExecResult.committed (ChessResponse.Err ChessError.InvalidMove) stInPlay
      ∧ ¬ ChessError.InvalidMove = ChessError.FriendlyFire :=
  ⟨rfl, rfl, by decide⟩

/-- C4 amended.  CapturePiece and PawnPromotion surface the distinct
engine error verbatim; the MakeMove arm instead collapses every engine
error into the single InvalidMove kind. -/
theorem engine_error_surfacing :
    (∀ (s : ChessState) (ctx : Ctx) (o : Owner) (fc tc pc cc : String)
      (p cp : Piece) (fs ts : Nat) (e : ChessError),
      ctx.signer = some o →
      ownersGet s.owners o = some s.board.active →
      ChessBoard.get_piece pc = some p →
      ChessBoard.get_piece cc = some cp →
      p.color = s.board.active →
      Square.from_str fc = some fs →
      Square.from_str tc = some ts →
      s.board.make_move fs ts p (MoveType.Capture cp) = Except.error e →
      execute_operation s ctx (Operation.CapturePiece fc tc pc cc)
        = ExecResult.committed (ChessResponse.Err e) s)
    ∧ (∀ (s : ChessState) (ctx : Ctx) (o : Owner) (fc tc pc qc : String)
      (p q : Piece) (fs ts : Nat) (e : ChessError),
      ctx.signer = some o →
      ownersGet s.owners o = some s.board.active →
      Square.from_str fc = some fs →
      Piece.from_str pc = some p →
      (p = Piece.WhitePawn ∧ Square.rank fs = 7
        ∨ p = Piece.BlackPawn ∧ Square.rank fs = 2) →
      Square.from_str tc = some ts →
      Piece.from_str qc = some q →
      s.board.make_move fs ts p (MoveType.Promotion q) = Except.error e →
      execute_operation s ctx (Operation.PawnPromotion fc tc pc qc)
        = ExecResult.committed (ChessResponse.Err e) s)
    ∧ (∀ (s : ChessState) (ctx : Ctx) (o : Owner) (fc tc pc : String)
      (p : Piece) (fs ts : Nat) (e : ChessError),
      ctx.signer = some o →
      ownersGet s.owners o = some s.board.active →
      ChessBoard.get_piece pc = some p →
      p.color = s.board.active →
      Square.from_str fc = some fs →
      Square.from_str tc = some ts →
      s.board.make_move fs ts p
          (makeMoveKind s.board.board.en_passant pc p fs ts) = Except.error e →
      execute_operation s ctx (Operation.MakeMove fc tc pc)
        = ExecResult.committed (ChessResponse.Err ChessError.InvalidMove) s) :=
  ⟨fun s ctx o fc tc pc cc p cp fs ts e hs ho hp hcp hcol hf ht he =>
    exec_capture_engine_error s ctx o fc tc pc cc p cp fs ts e hs ho hp hcp hcol hf ht he,
   fun s ctx o fc tc pc qc p q fs ts e hs ho hf hp hpr ht hq he =>
    exec_promotion_engine_error s ctx o fc tc pc qc p q fs ts e hs ho hf hp hpr ht hq he,
   fun s ctx o fc tc pc p fs ts e hs ho hp hcol hf ht he =>
    exec_makeMove_engine_error s ctx o fc tc pc p fs ts e hs ho hp hcol hf ht he⟩

/-- C4 witness: a CapturePiece from an empty square surfaces the engine
NoSuchPiece, a diagonal promotion onto an empty square surfaces the
engine IllegalPath, and an illegal rook move through MakeMove is
collapsed into InvalidMove. -/
theorem engine_error_surfacing_witness :
    execute_operation stInPlay ctxProm (Operation.CapturePiece "b1" "c3" "wN" "bP")
        = ExecResult.committed (ChessResponse.Err ChessError.NoSuchPiece) stInPlay
      ∧ execute_operation stProm ctxProm (Operation.PawnPromotion "a7" "b8" "wP" "wQ")
          = ExecResult.committed (ChessResponse.Err ChessError.IllegalPath) stProm
      ∧ execute_operation stInPlay ctxProm (Operation.MakeMove "a1" "b2" "wR")
          = ExecResult.committed (ChessResponse.Err ChessError.InvalidMove) stInPlay :=
  ⟨engine_error_surfacing.1 stInPlay ctxProm 1 "b1" "c3" "wN" "bP"
      Piece.WhiteKnight Piece.BlackPawn 1 18 ChessError.NoSuchPiece
      rfl rfl rfl rfl rfl rfl rfl rfl,
   engine_error_surfacing.2.1 stProm ctxProm 1 "a7" "b8" "wP" "wQ"
      Piece.WhitePawn Piece.WhiteQueen 48 57 ChessError.IllegalPath
      rfl rfl rfl rfl (Or.inl ⟨rfl, rfl⟩) rfl rfl rfl,
   engine_error_surfacing.2.2 stInPlay ctxProm 1 "a1" "b2" "wR"
      Piece.WhiteRook 0 9 ChessError.IllegalPath
      rfl rfl rfl rfl rfl rfl rfl⟩

/-- C8 counterexample.  The claim says a failing make_move has its error
returned to the caller.  A MakeMove from an empty square fails inside
the engine with NoSuchPiece but the caller receives InvalidMove. -/
theorem makeMove_failure_not_verbatim_cex :
    gameKRk.make_move 17 25 Piece.WhitePawn MoveType.Move
        = Except.error ChessError.NoSuchPiece
      ∧ execute_operation stInPlay ctxProm (Operation.MakeMove "b3" "b4" "wP")
          = ExecResult.committed (ChessResponse.Err ChessError.InvalidMove) stInPlay
      ∧ ¬ ChessError.InvalidMove = ChessError.NoSuchPiece :=
  ⟨rfl, rfl, by decide⟩

/-- C8 amended.  Whenever make_move fails, the operation commits a typed
rejection (the engine variant for CapturePiece and PawnPromotion, the
collapsed InvalidMove for MakeMove), and every operation that commits an
Err leaves the state exactly as it was: active colour not toggled,
clock not advanced, history not extended, terminal flag untouched. -/
theorem error_rejection_no_mutation :
    (∀ (s : ChessState) (ctx : Ctx) (op : Operation) (e : ChessError)
      (s' : ChessState),
      execute_operation s ctx op = ExecResult.committed (ChessResponse.Err e) s' →
      s' = s)
    ∧ (∀ (s : ChessState) (ctx : Ctx) (o : Owner) (fc tc pc : String)
      (p : Piece) (fs ts : Nat) (e : ChessError),
      ctx.signer = some o →
      ownersGet s.owners o = some s.board.active →
      ChessBoard.get_piece pc = some p →
      p.color = s.board.active →
      Square.from_str fc = some fs →
      Square.from_str tc = some ts →
      s.board.make_move fs ts p
          (makeMoveKind s.board.board.en_passant pc p fs ts) = Except.error e →
      execute_operation s ctx (Operation.MakeMove fc tc pc)
        = ExecResult.committed (ChessResponse.Err ChessError.InvalidMove) s)
    ∧ (∀ (s : ChessState) (ctx : Ctx) (o : Owner) (fc tc pc cc : String)
      (p cp : Piece) (fs ts : Nat) (e : ChessError),
      ctx.signer = some o →
      ownersGet s.owners o = some s.board.active →
      ChessBoard.get_piece pc = some p →
      ChessBoard.get_piece cc = some cp →
      p.color = s.board.active →
      Square.from_str fc = some fs →
      Square.from_str tc = some ts →
      s.board.make_move fs ts p (MoveType.Capture cp) = Except.error e →
      execute_operation s ctx (Operation.CapturePiece fc tc pc cc)
        = ExecResult.committed (ChessResponse.Err e) s)
    ∧ (∀ (s : ChessState) (ctx : Ctx) (o : Owner) (fc tc pc qc : String)
      (p q : Piece) (fs ts : Nat) (e : ChessError),
      ctx.signer = some o →
      ownersGet s.owners o = some s.board.active →
      Square.from_str fc = some fs →
      Piece.from_str pc = some p →
      (p = Piece.WhitePawn ∧ Square.rank fs = 7
        ∨ p = Piece.BlackPawn ∧ Square.rank fs = 2) →
      Square.from_str tc = some ts →
      Piece.from_str qc = some q →
      s.board.make_move fs ts p (MoveType.Promotion q) = Except.error e →
      execute_operation s ctx (Operation.PawnPromotion fc tc pc qc)
        = ExecResult.committed (ChessResponse.Err e) s) :=
  ⟨fun s ctx op e s' h => exec_err_unchanged s ctx op e s' h,
   fun s ctx o fc tc pc p fs ts e hs ho hp hcol hf ht he =>
    exec_makeMove_engine_error s ctx o fc tc pc p fs ts e hs ho hp hcol hf ht he,
   fun s ctx o fc tc pc cc p cp fs ts e hs ho hp hcp hcol hf ht he =>
    exec_capture_engine_error s ctx o fc tc pc cc p cp fs ts e hs ho hp hcp hcol hf ht he,
   fun s ctx o fc tc pc qc p q fs ts e hs ho hf hp hpr ht hq he =>
    exec_promotion_engine_error s ctx o fc tc pc qc p q fs ts e hs ho hf hp hpr ht hq he⟩

/-- C8 witness: a king move of two squares fails in the engine and is
committed as an InvalidMove rejection with the state untouched. -/
theorem error_rejection_no_mutation_witness :
    execute_operation stInPlay ctxProm (Operation.MakeMove "e1" "e3" "wK")
        = ExecResult.committed (ChessResponse.Err ChessError.InvalidMove) stInPlay :=
  error_rejection_no_mutation.2.1 stInPlay ctxProm 1 "e1" "e3" "wK"
    Piece.WhiteKing 4 20 ChessError.IllegalPath rfl rfl rfl rfl rfl rfl rfl

/-- C5 counterexample.  The claim says a move submitted for the
non active colour is rejected with WrongColor.  A MakeMove carrying a
black piece code while white is active is indeed rejected with the Board
unchanged, but the variant is InvalidMove, not WrongColor. -/
theorem wrong_color_variant_cex :
    execute_operation stInPlay ctxProm (Operation.MakeMove "d7" "d5" "bP")
        = ExecResult.committed (ChessResponse.Err ChessError.InvalidMove) stInPlay
      ∧ ¬ ChessError.InvalidMove = ChessError.WrongColor :=
  ⟨rfl, by decide⟩

/-- C5 amended.  A MakeMove whose piece code carries the prefix of the
non active colour is rejected before reaching the engine with the typed
error InvalidMove (not WrongColor), the state unchanged; and an
authenticated caller who maps to the non active colour does not get a
returned rejection at all: the assert_eq of contract.rs aborts the
transaction. -/
theorem wrong_color_rejection :
    (∀ (s : ChessState) (ctx : Ctx) (o : Owner) (fc tc pc : String),
      ctx.signer = some o →
      ownersGet s.owners o = some s.board.active →
      s.board.active = Color.White →
      startsWithChar pc 'b' = true →
      execute_operation s ctx (Operation.MakeMove fc tc pc)
        = ExecResult.committed (ChessResponse.Err ChessError.InvalidMove) s)
    ∧ (∀ (s : ChessState) (ctx : Ctx) (o : Owner) (fc tc pc : String),
      ctx.signer = some o →
      ownersGet s.owners o = some s.board.active →
      s.board.active = Color.Black →
      startsWithChar pc 'w' = true →
      execute_operation s ctx (Operation.MakeMove fc tc pc)
        = ExecResult.committed (ChessResponse.Err ChessError.InvalidMove) s)
    ∧ (∀ (s : ChessState) (ctx : Ctx) (o : Owner) (c : Color) (fc tc pc : String),
      ctx.signer = some o →
      ownersGet s.owners o = some c →
      ¬ s.board.active = c →
      execute_operation s ctx (Operation.MakeMove fc tc pc)
        = ExecResult.panicked "Only the active player can make a move.") := by
  refine ⟨?_, ?_, ?_⟩
  · intro s ctx o fc tc pc hs ho hact hb
    have hw := startsWithChar_w_of_b pc hb
    simp [execute_operation, hs, ho, hact, hb, hw]
  · intro s ctx o fc tc pc hs ho hact hw
    simp [execute_operation, hs, ho, hact, hw]
  · intro s ctx o c fc tc pc hs ho hne
    simp [execute_operation, hs, ho, hne]

/-- C5 witness: with white active, a black piece code in MakeMove is
rejected with InvalidMove and the state kept; the black owner signing
while white is active aborts through the assertion. -/
theorem wrong_color_rejection_witness :
    execute_operation stInPlay ctxProm (Operation.MakeMove "e7" "e5" "bP")
        = ExecResult.committed (ChessResponse.Err ChessError.InvalidMove) stInPlay
      ∧ execute_operation stInPlay ctxBlack (Operation.MakeMove "a1" "a2" "wR")
        = ExecResult.panicked "Only the active player can make a move." :=
  ⟨wrong_color_rejection.1 stInPlay ctxProm 1 "e7" "e5" "bP" rfl rfl rfl (by decide),
   wrong_color_rejection.2.2 stInPlay ctxBlack 2 Color.Black "a1" "a2" "wR" rfl rfl
     (by decide)⟩

/-- A string starting with w does not start with b. -/
theorem startsWithChar_b_of_w (s : String) (h : startsWithChar s 'w' = true) :
    startsWithChar s 'b' = false := by
  unfold startsWithChar at h ⊢
  cases hd : s.data <;> simp_all

/-- C7 counterexample.  The claim says a malformed square code makes the
operation return a ParseError.  A MakeMove whose from square is the
malformed code i1 does not return anything: the expect call of
contract.rs panics and the transaction aborts. -/
theorem parse_panic_cex :
    execute_operation stInPlay ctxProm (Operation.MakeMove "i1" "b2" "wR")
      = ExecResult.panicked "Invalid square" := rfl

/-- C7 amended.  A malformed square or piece code never reaches the
engine and never yields a committed response: the expect calls of
contract.rs panic (messages Invalid square and Invalid piece), aborting
the transaction, so no Board or Clock mutation is committed and no
ParseError value is returned. -/
theorem malformed_code_panics :
    (∀ (s : ChessState) (ctx : Ctx) (fc tc pc qc : String),
      Square.from_str fc = none →
      execute_operation s ctx (Operation.PawnPromotion fc tc pc qc)
        = ExecResult.panicked "Invalid square")
    ∧ (∀ (s : ChessState) (ctx : Ctx) (o : Owner) (fc tc pc : String),
      ctx.signer = some o →
      ownersGet s.owners o = some s.board.active →
      startsWithChar pc 'w' = true →
      s.board.active = Color.White →
      ChessBoard.get_piece pc = none →
      execute_operation s ctx (Operation.MakeMove fc tc pc)
        = ExecResult.panicked "Invalid piece")
    ∧ (∀ (s : ChessState) (ctx : Ctx) (o : Owner) (fc tc pc : String) (p : Piece),
      ctx.signer = some o →
      ownersGet s.owners o = some s.board.active →
      ChessBoard.get_piece pc = some p →
      p.color = s.board.active →
      Square.from_str fc = none →
      execute_operation s ctx (Operation.MakeMove fc tc pc)
        = ExecResult.panicked "Invalid square") := by
  refine ⟨?_, ?_, ?_⟩
  · intro s ctx fc tc pc qc hf
    simp [execute_operation, hf]
  · intro s ctx o fc tc pc hs ho hw hact hnp
    have hb := startsWithChar_b_of_w pc hw
    simp [execute_operation, hs, ho, hw, hb, hact, hnp]
  · intro s ctx o fc tc pc p hs ho hp hcol hf
    obtain ⟨hw, hb⟩ := pieceOfCode_prefixChars pc p hp
    simp [execute_operation, hs, ho, hp, hw, hb, ← hcol, hf]

/-- C7 witness: a malformed promotion square, a malformed piece code and
a malformed move square each abort through the matching panic. -/
theorem malformed_code_panics_witness :
    execute_operation stProm ctxProm (Operation.PawnPromotion "z9" "a8" "wP" "wQ")
        = ExecResult.panicked "Invalid square"
      ∧ execute_operation stInPlay ctxProm (Operation.MakeMove "a1" "a2" "wZ")
        = ExecResult.panicked "Invalid piece"
      ∧ execute_operation stInPlay ctxProm (Operation.MakeMove "e0" "e4" "wR")
        = ExecResult.panicked "Invalid square" :=
  ⟨malformed_code_panics.1 stProm ctxProm "z9" "a8" "wP" "wQ" rfl,
   malformed_code_panics.2.1 stInPlay ctxProm 1 "a1" "a2" "wZ" rfl rfl rfl rfl rfl,
   malformed_code_panics.2.2 stInPlay ctxProm 1 "e0" "e4" "wR" Piece.WhiteRook
     rfl rfl rfl rfl rfl⟩

/-- A legal promotion passed the promotion check of the validator: the
mover is a pawn, the destination is its last rank and the target kind is
promotable (spec section 4.2 item 7). -/
theorem validate_promotion_inv (b : ChessBoard) (active : Color) (fs ts : Nat)
    (p q : Piece)
    (h : validate b active fs ts p (MoveType.Promotion q) = none) :
    p.isPawn = true ∧ rank0 ts = lastRank0 p.color ∧ promotable q = true := by
  unfold validate at h
  repeat' split at h
  all_goals first | exact Option.noConfusion h | simp_all

/-- A successful make_move means the validator accepted the move. -/
theorem Game.make_move_ok_validate (g : Game) (fs ts : Nat) (p : Piece)
    (k : MoveType) (g' : Game) (h : g.make_move fs ts p k = Except.ok g') :
    validate g.board g.active fs ts p k = none := by
  unfold Game.make_move at h
  split at h
  · exact Except.noConfusion h
  · rename_i heq
    exact heq

/-- A rejecting validator makes make_move fail with the same error. -/
theorem Game.make_move_error_of_validate (g : Game) (fs ts : Nat) (p : Piece)
    (k : MoveType) (e : ChessError)
    (h : validate g.board g.active fs ts p k = some e) :
    g.make_move fs ts p k = Except.error e := by
  unfold Game.make_move
  rw [h]

/-- A single white pawn push onto an empty square is reachable. -/
theorem moveReach_whitePush (b : ChessBoard) (fs : Nat)
    (hocc : hasBit b.allMask (fs + 8) = false) :
    moveReach b Piece.WhitePawn fs (fs + 8) = true := by
  unfold moveReach
  simp only [Piece.isPawn, if_true, Piece.color, pawnDir, decide_eq_true_eq]
  refine Or.inl ⟨?_, ?_, ?_⟩
  · simp [fileOf, Nat.add_mod_right]
  · have hdiv : (fs + 8) / 8 = fs / 8 + 1 := Nat.add_div_right fs (by norm_num)
    simp only [rank0, hdiv]
    push_cast
    omega
  · simp [hocc]

/-- When the mover is in place with the right colour, the destination is
reachable and unoccupied, but the promotion check fails, the validator
answers IllegalPromotion (spec section 4.2, order of checks). -/
theorem validate_promotion_illegal (b : ChessBoard) (active : Color) (fs ts : Nat)
    (p q : Piece)
    (hocc : b.piece_at fs = some p) (hcol : p.color = active)
    (hreach : moveReach b p fs ts = true) (hdest : b.piece_at ts = none)
    (hbad : ¬ (p.isPawn = true ∧ rank0 ts = lastRank0 p.color ∧ promotable q = true)) :
    validate b active fs ts p (MoveType.Promotion q)
      = some ChessError.IllegalPromotion := by
  unfold validate
  rw [if_neg (fun hc => hc hocc), if_neg (fun hc => hc hcol),
    if_neg (fun hc => hc.2 hreach), hdest]
  simp only []
  rw [if_neg (by simp), if_neg hbad]

/-- A committed Ok of the PawnPromotion arm implies that the promoted
piece code, the destination square and the mover satisfied the engine
promotion check. -/
theorem exec_promotion_ok_inv (s : ChessState) (ctx : Ctx) (fc tc pc qc : String)
    (s' : ChessState)
    (h : execute_operation s ctx (Operation.PawnPromotion fc tc pc qc)
        = ExecResult.committed ChessResponse.Ok s') :
    ∃ (p q : Piece) (ts : Nat),
      Piece.from_str pc = some p ∧ Piece.from_str qc = some q
        ∧ Square.from_str tc = some ts
        ∧ p.isPawn = true ∧ rank0 ts = lastRank0 p.color ∧ promotable q = true := by
  simp only [execute_operation] at h
  repeat' split at h
  all_goals first
    | exact ExecResult.noConfusion h
    | (injection h with h1 h2; exact ChessResponse.noConfusion h1)
    | (rename_i sc1 fs hf sc2 p hp hg1 hg2 hg3 sc3 o hs sc4 a ho hne sc5 ts ht sc6 q hq
        sc7 g hmm hcd
       obtain ⟨i1, i2, i3⟩ := validate_promotion_inv _ _ _ _ _ _
         (Game.make_move_ok_validate _ _ _ _ _ _ hmm)
       exact ⟨p, q, ts, hp, hq, ht, i1, i2, i3⟩)

/-- C6.  A PawnPromotion can only commit Ok when the moving piece is a
pawn, the destination square is the last rank for its colour and the
promoted piece is a knight, bishop, rook or queen; a non pawn piece code
or a wrong origin rank is rejected with InvalidPromotion by the
dispatcher, and a non promotable target piece is rejected with the
engine IllegalPromotion. -/
theorem promotion_validity :
    (∀ (s : ChessState) (ctx : Ctx) (fc tc pc qc : String) (s' : ChessState),
      execute_operation s ctx (Operation.PawnPromotion fc tc pc qc)
        = ExecResult.committed ChessResponse.Ok s' →
      ∃ (p q : Piece) (ts : Nat),
        Piece.from_str pc = some p ∧ Piece.from_str qc = some q
          ∧ Square.from_str tc = some ts
          ∧ p.isPawn = true ∧ rank0 ts = lastRank0 p.color ∧ promotable q = true)
    ∧ (∀ (s : ChessState) (ctx : Ctx) (fc tc pc qc : String) (fs : Nat) (p : Piece),
      Square.from_str fc = some fs →
      Piece.from_str pc = some p →
      ¬ p = Piece.WhitePawn → ¬ p = Piece.BlackPawn →
      execute_operation s ctx (Operation.PawnPromotion fc tc pc qc)
        = ExecResult.committed (ChessResponse.Err ChessError.InvalidPromotion) s)
    ∧ (∀ (s : ChessState) (ctx : Ctx) (fc tc pc qc : String) (fs : Nat) (p : Piece),
      Square.from_str fc = some fs →
      Piece.from_str pc = some p →
      (p = Piece.WhitePawn ∧ ¬ Square.rank fs = 7
        ∨ p = Piece.BlackPawn ∧ ¬ Square.rank fs = 2) →
      execute_operation s ctx (Operation.PawnPromotion fc tc pc qc)
        = ExecResult.committed (ChessResponse.Err ChessError.InvalidPromotion) s)
    ∧ (∀ (s : ChessState) (ctx : Ctx) (o : Owner) (fc tc pc qc : String)
      (q : Piece) (fs ts : Nat),
      ctx.signer = some o →
      ownersGet s.owners o = some s.board.active →
      Square.from_str fc = some fs →
      Piece.from_str pc = some Piece.WhitePawn →
      Square.rank fs = 7 →
      Square.from_str tc = some ts →
      Piece.from_str qc = some q →
      ts = fs + 8 →
      s.board.active = Color.White →
      s.board.board.piece_at fs = some Piece.WhitePawn →
      s.board.board.piece_at ts = none →
      hasBit s.board.board.allMask ts = false →
      promotable q = false →
      execute_operation s ctx (Operation.PawnPromotion fc tc pc qc)
        = ExecResult.committed (ChessResponse.Err ChessError.IllegalPromotion) s) := by
  refine ⟨?_, ?_, ?_, ?_⟩
  · intro s ctx fc tc pc qc s' h
    exact exec_promotion_ok_inv s ctx fc tc pc qc s' h
  · intro s ctx fc tc pc qc fs p hf hp hnw hnb
    simp [execute_operation, hf, hp, hnw, hnb]
  · intro s ctx fc tc pc qc fs p hf hp hd
    rcases hd with ⟨hpw, hr⟩ | ⟨hpb, hr⟩
    · subst hpw
      simp [execute_operation, hf, hp, hr]
    · subst hpb
      simp [execute_operation, hf, hp, hr]
  · intro s ctx o fc tc pc qc q fs ts hs ho hf hp hr ht hq hts hact hocc hdest hno hqbad
    subst hts
    have hreach := moveReach_whitePush s.board.board fs hno
    have hval := validate_promotion_illegal s.board.board s.board.active fs (fs + 8)
      Piece.WhitePawn q hocc (by rw [hact]; rfl) hreach hdest
      (fun hc => by rw [hqbad] at hc; exact Bool.noConfusion hc.2.2)
    exact exec_promotion_engine_error s ctx o fc tc pc qc Piece.WhitePawn q fs (fs + 8)
      ChessError.IllegalPromotion hs ho hf hp (Or.inl ⟨rfl, hr⟩) ht hq
      (Game.make_move_error_of_validate _ _ _ _ _ _ hval)

/-- C6 witness: promoting with a knight piece code, promoting from e4,
and promoting to a king are each rejected with the matching error, while
the legal queen promotion from a7 commits Ok. -/
theorem promotion_validity_witness :
    execute_operation stProm ctxProm (Operation.PawnPromotion "a7" "a8" "wN" "wQ")
        = ExecResult.committed (ChessResponse.Err ChessError.InvalidPromotion) stProm
      ∧ execute_operation stProm ctxProm (Operation.PawnPromotion "e4" "e5" "wP" "wQ")
        = ExecResult.committed (ChessResponse.Err ChessError.InvalidPromotion) stProm
      ∧ execute_operation stProm ctxProm (Operation.PawnPromotion "a7" "a8" "wP" "wK")
        = ExecResult.committed (ChessResponse.Err ChessError.IllegalPromotion) stProm
      ∧ (execute_operation stProm ctxProm
          (Operation.PawnPromotion "a7" "a8" "wP" "wQ")).respOf
        = some ChessResponse.Ok :=
  ⟨promotion_validity.2.1 stProm ctxProm "a7" "a8" "wN" "wQ" 48 Piece.WhiteKnight
      rfl rfl (by decide) (by decide),
   promotion_validity.2.2.1 stProm ctxProm "e4" "e5" "wP" "wQ" 28 Piece.WhitePawn
      rfl rfl (Or.inl ⟨rfl, by decide⟩),
   promotion_validity.2.2.2 stProm ctxProm 1 "a7" "a8" "wP" "wK" Piece.WhiteKing 48 56
      rfl rfl rfl rfl rfl rfl rfl rfl rfl rfl rfl rfl rfl,
   rfl⟩

/-- Toggling the other way round twice is the identity. -/
theorem Color.opposite_opposite (c : Color) : c.opposite.opposite = c := by
  cases c <;> rfl

/-- switch_player_turn toggles the active colour. -/
theorem Game.active_switch (g : Game) : g.switch_player_turn.active = g.active.opposite := rfl

/-- Appending a history entry keeps the active colour. -/
theorem Game.active_create_move_string (g : Game) (c : Color) (m : String) :
    (g.create_move_string c m).active = g.active := rfl

/-- Recomputing the terminal flag keeps the active colour. -/
theorem Game.active_is_checkmate (g : Game) : g.is_checkmate.active = g.active := by
  unfold Game.is_checkmate
  split
  · rfl
  · split <;> rfl

/-- A successful engine make_move keeps the active colour: switching is
a separate step (spec section 4.3). -/
theorem Game.make_move_active (g : Game) (fs ts : Nat) (p : Piece) (k : MoveType)
    (g' : Game) (h : g.make_move fs ts p k = Except.ok g') : g'.active = g.active := by
  unfold Game.make_move at h
  split at h
  · exact Except.noConfusion h
  · injection h with h1
    subst h1
    rfl

/-- A committed Ok of the MakeMove arm toggles the active colour exactly
once. -/
theorem exec_makeMove_ok_toggle (s : ChessState) (ctx : Ctx) (fc tc pc : String)
    (s' : ChessState)
    (h : execute_operation s ctx (Operation.MakeMove fc tc pc)
        = ExecResult.committed ChessResponse.Ok s') :
    s'.board.active = s.board.active.opposite := by
  simp only [execute_operation] at h
  repeat' split at h
  all_goals first
    | exact ExecResult.noConfusion h
    | (injection h with h1 h2; exact ChessResponse.noConfusion h1)
    | (injection h with h1 h2
       subst h2
       rename_i g1 heq hlt
       simp only [Game.active_is_checkmate, Game.active_create_move_string,
         Game.active_switch]
       rw [Game.make_move_active _ _ _ _ _ _ heq])

/-- A committed Ok of the CapturePiece arm toggles the active colour
exactly once. -/
theorem exec_capture_ok_toggle (s : ChessState) (ctx : Ctx) (fc tc pc cc : String)
    (s' : ChessState)
    (h : execute_operation s ctx (Operation.CapturePiece fc tc pc cc)
        = ExecResult.committed ChessResponse.Ok s') :
    s'.board.active = s.board.active.opposite := by
  simp only [execute_operation] at h
  repeat' split at h
  all_goals first
    | exact ExecResult.noConfusion h
    | (injection h with h1 h2; exact ChessResponse.noConfusion h1)
    | (injection h with h1 h2
       subst h2
       rename_i g1 heq hlt
       simp only [Game.active_is_checkmate, Game.active_create_move_string,
         Game.active_switch]
       rw [Game.make_move_active _ _ _ _ _ _ heq])

/-- A committed Ok of the PawnPromotion arm toggles the active colour
exactly once. -/
theorem exec_promotion_ok_toggle (s : ChessState) (ctx : Ctx) (fc tc pc qc : String)
    (s' : ChessState)
    (h : execute_operation s ctx (Operation.PawnPromotion fc tc pc qc)
        = ExecResult.committed ChessResponse.Ok s') :
    s'.board.active = s.board.active.opposite := by
  simp only [execute_operation] at h
  repeat' split at h
  all_goals first
    | exact ExecResult.noConfusion h
    | (injection h with h1 h2; exact ChessResponse.noConfusion h1)
    | (injection h with h1 h2
       subst h2
       rename_i g1 heq hlt
       simp only [Game.active_is_checkmate, Game.active_create_move_string,
         Game.active_switch]
       rw [Game.make_move_active _ _ _ _ _ _ heq])

/-- The three state mutating move operations (everything except
NewGame). -/
def isMoveOp : Operation → Bool
  | .NewGame _ => false
  | _ => true

/-- Running a sequence of operations, each of which must commit Ok. -/
def runOps : ChessState → List (Ctx × Operation) → Option ChessState
  | s, [] => some s
  | s, step :: rest =>
    match execute_operation s step.1 step.2 with
    | .committed .Ok s1 => runOps s1 rest
    | _ => none

/-- C9.  Every move operation that commits Ok toggles the active colour
exactly once, so across any sequence of successful move operations the
active colour strictly alternates: after an even number of moves it is
back to the start colour, after an odd number it is the opposite one. -/
theorem active_alternates :
    (∀ (s : ChessState) (ctx : Ctx) (op : Operation) (s' : ChessState),
      isMoveOp op = true →
      execute_operation s ctx op = ExecResult.committed ChessResponse.Ok s' →
      s'.board.active = s.board.active.opposite)
    ∧ (∀ (l : List (Ctx × Operation)) (s s' : ChessState),
      (∀ x ∈ l, isMoveOp x.2 = true) →
      runOps s l = some s' →
      s'.board.active
        = (if l.length % 2 = 0 then s.board.active else s.board.active.opposite)) := by
  have step : ∀ (s : ChessState) (ctx : Ctx) (op : Operation) (s' : ChessState),
      isMoveOp op = true →
      execute_operation s ctx op = ExecResult.committed ChessResponse.Ok s' →
      s'.board.active = s.board.active.opposite := by
    intro s ctx op s' hmv h
    cases op with
    | NewGame p => exact absurd hmv (by simp [isMoveOp])
    | CapturePiece fc tc pc cc => exact exec_capture_ok_toggle s ctx fc tc pc cc s' h
    | MakeMove fc tc pc => exact exec_makeMove_ok_toggle s ctx fc tc pc s' h
    | PawnPromotion fc tc pc qc => exact exec_promotion_ok_toggle s ctx fc tc pc qc s' h
  refine ⟨step, ?_⟩
  intro l
  induction l with
  | nil =>
    intro s s' hall h
    simp only [runOps] at h
    injection h with h1
    subst h1
    simp
  | cons hd rest ih =>
    intro s s' hall h
    simp only [runOps] at h
    split at h
    · rename_i s1 heq
      have h1 : s1.board.active = s.board.active.opposite :=
        step s hd.1 hd.2 s1 (hall hd (List.mem_cons_self hd rest)) heq
      have h2 := ih s1 s' (fun x hx => hall x (List.mem_cons_of_mem hd hx)) h
      simp only [List.length_cons]
      by_cases hp : rest.length % 2 = 0
      · rw [if_neg (by omega)]
        rw [h2, if_pos hp, h1]
      · rw [if_pos (by omega)]
        rw [h2, if_neg hp, h1, Color.opposite_opposite]
    · exact Option.noConfusion h

/-- C9 witness: one successful white rook move flips the active colour
to black. -/
theorem active_alternates_witness :
    (runOps stInPlay [(ctxProm, Operation.MakeMove "a1" "a2" "wR")]).map
        (fun st => st.board.active) = some Color.Black := by
  have h : runOps stInPlay [(ctxProm, Operation.MakeMove "a1" "a2" "wR")]
      = some ((runOps stInPlay
          [(ctxProm, Operation.MakeMove "a1" "a2" "wR")]).getD stInPlay) := rfl
  have h2 := active_alternates.2 [(ctxProm, Operation.MakeMove "a1" "a2" "wR")]
    stInPlay ((runOps stInPlay
      [(ctxProm, Operation.MakeMove "a1" "a2" "wR")]).getD stInPlay) (by decide) h
  rw [h]
  exact congrArg some (h2.trans rfl)

/-- C10.  NewGame joining: the first player to join an empty game is
recorded without a fresh board being created; a fresh Game board is set
exactly when a second, distinct player joins; both joins answer Ok. -/
theorem new_game_joining (s : ChessState) (ctx : Ctx) (p q : Owner) :
    (s.players = [] →
      execute_operation s ctx (Operation.NewGame p)
        = ExecResult.committed ChessResponse.Ok { s with players := [p] })
    ∧ (s.players = [q] → ¬ p = q →
      execute_operation s ctx (Operation.NewGame p)
        = ExecResult.committed ChessResponse.Ok
            { s with players := [q, p], board := Game.new }) := by
  constructor
  · intro h
    simp [execute_operation, ChessState.get_players, ChessState.add_player, h]
  · intro h hne
    simp [execute_operation, ChessState.get_players, ChessState.add_player, h, hne]

/-- C10 witness: joining an empty game records the player and keeps the
board, joining with a second distinct player sets a fresh board. -/
theorem new_game_joining_witness :
    execute_operation { stInPlay with players := [] } ctxProm (Operation.NewGame 7)
        = ExecResult.committed ChessResponse.Ok { stInPlay with players := [7] }
      ∧ execute_operation { stInPlay with players := [7] } ctxProm (Operation.NewGame 9)
        = ExecResult.committed ChessResponse.Ok
            { stInPlay with players := [7, 9], board := Game.new } :=
  ⟨(new_game_joining { stInPlay with players := [] } ctxProm 7 9).1 rfl,
   (new_game_joining { stInPlay with players := [7] } ctxProm 9 7).2 rfl (by decide)⟩

end Stella
